import Mathlib

/-!
Shallow embedding of the paper-trading ledger and risk-sizing engine of
`crypto_trading_agent` (files `simulation.py` and `agent.py`).

Modelling conventions:
* Python floats are modelled as exact rationals (`ℚ`); the spec's invariants
  are stated "exact under rational arithmetic".
* `uuid.uuid4()` position ids are modelled by a monotone counter `next_id`
  carried in the simulator state; all that matters about ids is freshness.
* The timestamps `opened_at` / `closed_at` (side-effecting wall-clock reads)
  are abstracted away: no claim refers to them.
* Python `dict` (insertion-ordered, unique keys) is modelled as a list kept in
  insertion order; `positions` is keyed by the id stored in each record and
  `last_prices` is an association list updated in place.
* Python exceptions raised by an operation are modelled with `Except`: a call
  that raises leaves the state unchanged (the code raises before mutating).
-/

namespace CryptoSim

/-- Mirror of the `SimPosition` dataclass (`simulation.py`).  `side` and
`status` are the literal strings used by the source ("long"/"short",
"open"/"closed"). -/
structure SimPosition where
  id : Nat
  pair : String
  side : String
  entry_price : ℚ
  notional : ℚ
  stop_loss : Option ℚ
  take_profit : Option ℚ
  status : String
  close_price : Option ℚ
  pnl : Option ℚ
deriving DecidableEq, Repr

/-- The error taxonomy of the ledger operations: each constructor corresponds
to one `raise` site in `simulation.py` (`ValueError` / `KeyError`). -/
inductive SimError where
  | invalidSide
  | nonPositiveNotional
  | insufficientFunds (requested available : ℚ)
  | noLastPrice (pair : String)
  | notFound (pos_id : Nat)
deriving DecidableEq, Repr

/-- Mirror of the mutable state of class `TradingSimulator`. -/
structure TradingSimulator where
  initial_balance : ℚ
  cash : ℚ
  positions : List SimPosition
  trade_history : List SimPosition
  last_prices : List (String × ℚ)
  next_id : Nat
deriving DecidableEq, Repr

/-- `TradingSimulator.__init__(initial_balance)`. -/
def TradingSimulator.mk0 (initial_balance : ℚ) : TradingSimulator :=
  ⟨initial_balance, initial_balance, [], [], [], 0⟩

/-- `TradingSimulator._calc_pnl_price`: long pays `notional * (price/entry - 1)`,
anything else (the source's `else`, reachable only for "short") pays
`notional * (entry/price - 1)`. -/
def calc_pnl_price (pos : SimPosition) (price : ℚ) : ℚ :=
  if pos.side = "long" then pos.notional * (price / pos.entry_price - 1)
  else pos.notional * (pos.entry_price / price - 1)

/-- `a if a is not None else b` — the price-resolution pattern used by
`place_order` and `close_position`. -/
def firstSome (a b : Option ℚ) : Option ℚ :=
  match a with
  | some x => some x
  | none => b

/-- Python `str.lower()` (used by `place_order` to normalise `side`),
modelled character-wise; for ASCII inputs this matches `str.lower()`
exactly.  Defined by structural recursion on the character list so that
concrete instances evaluate. -/
def pyLower (s : String) : String := ⟨s.data.map Char.toLower⟩

/-- The record produced by the mutation block of `close_position`
(lines 260-263 of `simulation.py`). -/
def closedVersion (pos : SimPosition) (p : ℚ) : SimPosition :=
  { pos with status := "closed", close_price := some p, pnl := some (calc_pnl_price pos p) }

/-- `TradingSimulator.close_position(pos_id, price)`.  The source looks the id
up in the open-position dict (`KeyError` when absent), returns the position
unchanged when its status is not "open", resolves the close price (explicit
argument, else last price, else `ValueError`), then credits
`cash += notional + pnl`, marks the record closed, appends it to
`trade_history` and deletes the dict entry. -/
def TradingSimulator.close_position (st : TradingSimulator) (pos_id : Nat)
    (price : Option ℚ) : Except SimError (SimPosition × TradingSimulator) :=
  match st.positions.find? (fun q => q.id == pos_id) with
  | none => .error (.notFound pos_id)
  | some pos =>
    if pos.status ≠ "open" then .ok (pos, st)
    else
      match firstSome price (st.last_prices.lookup pos.pair) with
      | none => .error (.noLastPrice pos.pair)
      | some p =>
        .ok (closedVersion pos p,
          { st with
            cash := st.cash + pos.notional + calc_pnl_price pos p,
            trade_history := st.trade_history ++ [closedVersion pos p],
            positions := st.positions.eraseP (fun q => q.id == pos_id) })

/-- The state reached by calling `close_position`; on an exception the state
is as before the call (the source raises before mutating anything). -/
def closeApply (st : TradingSimulator) (pos_id : Nat) (price : Option ℚ) :
    TradingSimulator :=
  match st.close_position pos_id price with
  | .ok x => x.2
  | .error _ => st

/-- `hit_sl` of `_check_and_maybe_close`: stop set, and for a long
`price <= stop_loss`, for a short `price >= stop_loss`. -/
def hitStop (pos : SimPosition) (price : ℚ) : Bool :=
  match pos.stop_loss with
  | none => false
  | some sl =>
    (pos.side == "long" && decide (price ≤ sl)) ||
      (pos.side == "short" && decide (sl ≤ price))

/-- `hit_tp` of `_check_and_maybe_close`: take-profit set, and for a long
`price >= take_profit`, for a short `price <= take_profit`. -/
def hitTP (pos : SimPosition) (price : ℚ) : Bool :=
  match pos.take_profit with
  | none => false
  | some tp =>
    (pos.side == "long" && decide (tp ≤ price)) ||
      (pos.side == "short" && decide (price ≤ tp))

/-- `TradingSimulator._check_and_maybe_close`: when a trigger is hit, close at
the ingested price (the inner `close_position` cannot raise when called from
`update_price`: the id is present and a price is passed). -/
def TradingSimulator.check_and_maybe_close (st : TradingSimulator)
    (pos : SimPosition) (price : ℚ) : TradingSimulator :=
  if hitStop pos price || hitTP pos price then closeApply st pos.id (some price)
  else st

/-- Python `dict` assignment `self.last_prices[pair] = price`: replace in
place when the key exists, append otherwise. -/
def setPrice (lp : List (String × ℚ)) (pair : String) (price : ℚ) :
    List (String × ℚ) :=
  if lp.any (fun e => e.1 == pair) then
    lp.map (fun e => if e.1 == pair then (e.1, price) else e)
  else lp ++ [(pair, price)]

/-- The loop of `update_price`: iterate over a snapshot of the open positions
(`list(self.positions.values())`), evaluating triggers for the open ones on
the ingested market. -/
def updateGo (price : ℚ) (pair : String) :
    TradingSimulator → List SimPosition → TradingSimulator
  | st, [] => st
  | st, pos :: rest =>
    if pos.pair == pair && pos.status == "open" then
      updateGo price pair (st.check_and_maybe_close pos price) rest
    else updateGo price pair st rest

/-- `TradingSimulator.update_price(pair, price)`: record the last price, then
re-evaluate every open position on that market against SL/TP. -/
def TradingSimulator.update_price (st : TradingSimulator) (pair : String)
    (price : ℚ) : TradingSimulator :=
  let st1 := { st with last_prices := setPrice st.last_prices pair price }
  updateGo price pair st1 st1.positions

/-- `TradingSimulator.place_order`: validate side (lower-cased) and notional,
check funds, resolve the entry price (explicit argument else last price),
debit cash and insert a fresh open position. -/
def TradingSimulator.place_order (st : TradingSimulator) (pair side0 : String)
    (notional : ℚ) (entry_price stop_loss take_profit : Option ℚ) :
    Except SimError (SimPosition × TradingSimulator) :=
  let side := pyLower side0
  if ¬ (side = "long" ∨ side = "short") then .error .invalidSide
  else if notional ≤ 0 then .error .nonPositiveNotional
  else if st.cash < notional then .error (.insufficientFunds notional st.cash)
  else
    match firstSome entry_price (st.last_prices.lookup pair) with
    | none => .error (.noLastPrice pair)
    | some ep =>
      let pos : SimPosition :=
        ⟨st.next_id, pair, side, ep, notional, stop_loss, take_profit,
          "open", none, none⟩
      .ok (pos,
        { st with
          cash := st.cash - notional,
          positions := st.positions ++ [pos],
          next_id := st.next_id + 1 })

/-- The state reached by calling `place_order`; on an exception the state is
as before the call (all `raise` sites precede the mutations). -/
def placeApply (st : TradingSimulator) (pair side0 : String) (notional : ℚ)
    (entry_price stop_loss take_profit : Option ℚ) : TradingSimulator :=
  match st.place_order pair side0 notional entry_price stop_loss take_profit with
  | .ok x => x.2
  | .error _ => st

/-- `TradingSimulator.reset(initial_balance)`. -/
def TradingSimulator.reset (st : TradingSimulator) (initial_balance : Option ℚ) :
    TradingSimulator :=
  let ib :=
    match initial_balance with
    | some b => b
    | none => st.initial_balance
  ⟨ib, ib, [], [], [], st.next_id⟩

/-- `TradingSimulator._equity()`: cash plus unrealized PnL of the open
positions that have a last price. -/
def TradingSimulator.equity (st : TradingSimulator) : ℚ :=
  st.cash +
    (st.positions.map (fun pos =>
      match st.last_prices.lookup pos.pair with
      | none => 0
      | some price =>
        if pos.status == "open" then calc_pnl_price pos price else 0)).sum

/-- Realized PnL summed over the closed-trade history
(`sum((p.pnl or 0.0) for p in self.trade_history)`). -/
def realizedPnl (st : TradingSimulator) : ℚ :=
  (st.trade_history.map (fun p => p.pnl.getD 0)).sum

/-- Notional committed to the open positions. -/
def openNotional (st : TradingSimulator) : ℚ :=
  (st.positions.map (fun p => p.notional)).sum

/-- The cash-conservation invariant of the spec (§3): cash plus open notional
equals the initial balance plus the realized PnL booked into history. -/
def conserved (st : TradingSimulator) : Prop :=
  st.cash + openNotional st = st.initial_balance + realizedPnl st

/-- Python slice `l[start:]` (single-argument slice with a possibly negative
start index). -/
def pySliceFrom {α : Type} (l : List α) (start : Int) : List α :=
  if 0 ≤ start then l.drop start.toNat
  else l.drop (l.length - min (-start).toNat l.length)

/-- The dictionary returned by `trade_history_summary`. -/
structure HistorySummary where
  total_trades : Nat
  wins : Nat
  losses : Nat
  win_rate : ℚ
  total_pnl : ℚ
  trades : List SimPosition
deriving DecidableEq, Repr

/-- `TradingSimulator.trade_history_summary(limit)`: the window is
`trade_history[-limit:]`; wins count `pnl > 0`, losses count `pnl < 0`,
`win_rate = wins / total` guarded to `0` for an empty window, and `total_pnl`
sums over the window. -/
def TradingSimulator.trade_history_summary (st : TradingSimulator)
    (limit : Int) : HistorySummary :=
  let trades := pySliceFrom st.trade_history (-limit)
  let wins := trades.countP (fun t => decide (0 < t.pnl.getD 0))
  let losses := trades.countP (fun t => decide (t.pnl.getD 0 < 0))
  let total := trades.length
  let win_rate : ℚ := if 0 < total then (wins : ℚ) / (total : ℚ) else 0
  let total_pnl := (trades.map (fun t => t.pnl.getD 0)).sum
  ⟨total, wins, losses, win_rate, total_pnl, trades⟩

/-- Result of `suggest_notional_from_risk`, with one error constructor per
early-return site in the source. -/
inductive RiskResult where
  | success (notional equity last_price risk_amount : ℚ)
  | nonPositiveEquity
  | noLastPrice (pair : String)
  | nonPositiveRiskPercent
  | zeroStopDistance
deriving DecidableEq, Repr

/-- `suggest_notional_from_risk(risk_percent, pair, stop_loss)` from
`simulation.py`: reads equity and the last price, derives
`risk_amount = equity * risk_percent/100` and
`notional = risk_amount / |1 - stop_loss/last_price|`.  Pure read of the
ledger; the source mutates nothing. -/
def suggest_notional_from_risk (st : TradingSimulator) (risk_percent : ℚ)
    (pair : String) (stop_loss : ℚ) : RiskResult :=
  let equity := st.equity
  if equity ≤ 0 then .nonPositiveEquity
  else
    match st.last_prices.lookup pair with
    | none => .noLastPrice pair
    | some last_price =>
      let risk_fraction := risk_percent / 100
      if risk_fraction ≤ 0 then .nonPositiveRiskPercent
      else
        let stop_dist := |1 - stop_loss / last_price|
        if stop_dist ≤ 0 then .zeroStopDistance
        else
          let risk_amount := equity * risk_fraction
          .success (risk_amount / stop_dist) equity last_price risk_amount

/-- `MAX_NOTIONAL_FRACTION` from `agent.py`. -/
def MAX_NOTIONAL_FRACTION : ℚ := 20 / 100

/-- Result of the `sim_place_order` boundary tool: a success dict carrying the
position, or an error dict (message text abstracted away). -/
inductive ToolResult where
  | success (pos : SimPosition)
  | error
deriving DecidableEq, Repr

/-- `sim_place_order` from `agent.py`: reject any notional above
`MAX_NOTIONAL_FRACTION` of current equity before touching the simulator;
otherwise delegate to `place_order`, turning an exception into an error dict
with the state unchanged. -/
def sim_place_order (st : TradingSimulator) (pair side0 : String)
    (notional : ℚ) (entry_price stop_loss take_profit : Option ℚ) :
    ToolResult × TradingSimulator :=
  let max_notional := st.equity * MAX_NOTIONAL_FRACTION
  if max_notional < notional then (.error, st)
  else
    match st.place_order pair side0 notional entry_price stop_loss take_profit with
    | .ok x => (.success x.1, x.2)
    | .error _ => (.error, st)

/-- The ledger operations a caller can drive the simulator with. -/
inductive Op where
  | place (pair side0 : String) (notional : ℚ)
      (entry_price stop_loss take_profit : Option ℚ)
  | close (pos_id : Nat) (price : Option ℚ)
  | ingest (pair : String) (price : ℚ)
  | reset (initial_balance : Option ℚ)

/-- State transition of one operation; an operation that raises leaves the
state unchanged. -/
def TradingSimulator.applyOp (st : TradingSimulator) : Op → TradingSimulator
  | .place pair side0 n e sl tp => placeApply st pair side0 n e sl tp
  | .close pos_id p => closeApply st pos_id p
  | .ingest pair price => st.update_price pair price
  | .reset ib => st.reset ib

/-- Run a sequence of operations from a state. -/
def TradingSimulator.run (st : TradingSimulator) (ops : List Op) :
    TradingSimulator :=
  ops.foldl TradingSimulator.applyOp st

/-! ### Cash conservation -/

theorem sum_notional_eraseP (l : List SimPosition) (pid : Nat)
    (pos : SimPosition) (h : l.find? (fun q => q.id == pid) = some pos) :
    ((l.eraseP (fun q => q.id == pid)).map (fun p => p.notional)).sum
        + pos.notional
      = (l.map (fun p => p.notional)).sum := by
  induction l with
  | nil => simp at h
  | cons a l ih =>
    cases hab : (a.id == pid) with
    | true =>
      simp only [List.find?, hab, Option.some.injEq] at h
      subst h
      simp [List.eraseP, hab, add_comm]
    | false =>
      simp only [List.find?, hab] at h
      simp only [List.eraseP, hab, cond_false, List.map_cons, List.sum_cons]
      have := ih h
      linarith

theorem conserved_closeApply (st : TradingSimulator) (pid : Nat)
    (p : Option ℚ) (h : conserved st) : conserved (closeApply st pid p) := by
  unfold closeApply TradingSimulator.close_position
  cases hfind : st.positions.find? (fun q => q.id == pid) with
  | none => exact h
  | some pos =>
    dsimp only
    by_cases hst : pos.status = "open"
    · rw [if_neg (not_not_intro hst)]
      cases hp : firstSome p (st.last_prices.lookup pos.pair) with
      | none => exact h
      | some q =>
        have hsum := sum_notional_eraseP st.positions pid pos hfind
        unfold conserved openNotional realizedPnl at h ⊢
        simp only [List.map_append, List.sum_append, List.map_cons,
          List.sum_cons, List.map_nil, List.sum_nil, closedVersion,
          Option.getD_some]
        linarith
    · rw [if_pos hst]
      exact h

theorem conserved_placeApply (st : TradingSimulator) (pair side0 : String)
    (notional : ℚ) (entry_price stop_loss take_profit : Option ℚ)
    (h : conserved st) :
    conserved (placeApply st pair side0 notional entry_price stop_loss
      take_profit) := by
  unfold placeApply TradingSimulator.place_order
  by_cases h1 : ¬ (pyLower side0 = "long" ∨ pyLower side0 = "short")
  · rw [if_pos h1]; exact h
  · rw [if_neg h1]
    by_cases h2 : notional ≤ 0
    · rw [if_pos h2]; exact h
    · rw [if_neg h2]
      by_cases h3 : st.cash < notional
      · rw [if_pos h3]; exact h
      · rw [if_neg h3]
        cases firstSome entry_price (st.last_prices.lookup pair) with
        | none => exact h
        | some ep =>
          unfold conserved openNotional realizedPnl at h ⊢
          simp only [List.map_append, List.sum_append, List.map_cons,
            List.sum_cons, List.map_nil, List.sum_nil]
          linarith

theorem conserved_check_and_maybe_close (st : TradingSimulator)
    (pos : SimPosition) (price : ℚ) (h : conserved st) :
    conserved (st.check_and_maybe_close pos price) := by
  unfold TradingSimulator.check_and_maybe_close
  by_cases hc : (hitStop pos price || hitTP pos price) = true
  · rw [if_pos hc]
    exact conserved_closeApply st pos.id (some price) h
  · rw [if_neg hc]
    exact h

theorem conserved_updateGo (price : ℚ) (pair : String) (l : List SimPosition) :
    ∀ st : TradingSimulator, conserved st →
      conserved (updateGo price pair st l) := by
  induction l with
  | nil => intro st h; exact h
  | cons pos rest ih =>
    intro st h
    unfold updateGo
    by_cases hc : (pos.pair == pair && pos.status == "open") = true
    · rw [if_pos hc]
      exact ih _ (conserved_check_and_maybe_close st pos price h)
    · rw [if_neg hc]
      exact ih _ h

theorem conserved_update_price (st : TradingSimulator) (pair : String)
    (price : ℚ) (h : conserved st) :
    conserved (st.update_price pair price) := by
  unfold TradingSimulator.update_price
  exact conserved_updateGo price pair _ _ h

theorem conserved_reset (st : TradingSimulator) (ib : Option ℚ) :
    conserved (st.reset ib) := by
  unfold conserved openNotional realizedPnl TradingSimulator.reset
  cases ib <;> simp

theorem conserved_applyOp (st : TradingSimulator) (op : Op)
    (h : conserved st) : conserved (st.applyOp op) := by
  cases op with
  | place pair side0 n e sl tp => exact conserved_placeApply st pair side0 n e sl tp h
  | close pid p => exact conserved_closeApply st pid p h
  | ingest pair price => exact conserved_update_price st pair price h
  | reset ib => exact conserved_reset st ib

theorem conserved_run (ops : List Op) :
    ∀ st : TradingSimulator, conserved st → conserved (st.run ops) := by
  induction ops with
  | nil => intro st h; exact h
  | cons op ops ih =>
    intro st h
    exact ih _ (conserved_applyOp st op h)

/-! ### Lookup, erasure and trigger machinery -/

theorem find?_id_of_nodup (l : List SimPosition) (pos : SimPosition)
    (hnd : (l.map (fun p => p.id)).Nodup) (hmem : pos ∈ l) :
    l.find? (fun q => q.id == pos.id) = some pos := by
  induction l with
  | nil => simp at hmem
  | cons a l ih =>
    simp only [List.map_cons, List.nodup_cons] at hnd
    rcases List.mem_cons.mp hmem with hq | hq
    · subst hq
      simp [List.find?]
    · cases hab : (a.id == pos.id) with
      | true =>
        exfalso
        have hai : a.id = pos.id := by rwa [Nat.beq_eq_true_eq] at hab
        have hpm : pos.id ∈ l.map (fun p => p.id) :=
          List.mem_map.mpr ⟨pos, hq, rfl⟩
        exact hnd.1 (by rw [hai]; exact hpm)
      | false =>
        simp only [List.find?, hab]
        exact ih hnd.2 hq

theorem id_not_mem_eraseP (l : List SimPosition) (pos : SimPosition)
    (hnd : (l.map (fun p => p.id)).Nodup) (hmem : pos ∈ l) :
    pos.id ∉ (l.eraseP (fun q => q.id == pos.id)).map (fun p => p.id) := by
  induction l with
  | nil => simp at hmem
  | cons a l ih =>
    simp only [List.map_cons, List.nodup_cons] at hnd
    cases hab : (a.id == pos.id) with
    | true =>
      have hai : a.id = pos.id := by rwa [Nat.beq_eq_true_eq] at hab
      simp only [List.eraseP, hab, cond_true]
      rw [← hai]
      exact hnd.1
    | false =>
      have hq : pos ∈ l := by
        rcases List.mem_cons.mp hmem with hq | hq
        · subst hq; simp at hab
        · exact hq
      simp only [List.eraseP, hab, cond_false, List.map_cons,
        List.mem_cons, not_or]
      refine ⟨?_, ih hnd.2 hq⟩
      intro hc
      rw [hc] at hab
      simp at hab

theorem mem_eraseP_of_id_ne (l : List SimPosition) (a : SimPosition)
    (pid : Nat) (hmem : a ∈ l) (hne : (a.id == pid) = false) :
    a ∈ l.eraseP (fun q => q.id == pid) := by
  induction l with
  | nil => simp at hmem
  | cons b l ih =>
    cases hb : (b.id == pid) with
    | true =>
      simp only [List.eraseP, hb, cond_true]
      rcases List.mem_cons.mp hmem with hq | hq
      · subst hq; rw [hne] at hb; exact absurd hb (by simp)
      · exact hq
    | false =>
      simp only [List.eraseP, hb, cond_false, List.mem_cons]
      rcases List.mem_cons.mp hmem with hq | hq
      · exact Or.inl hq
      · exact Or.inr (ih hq)

/-- Shape of the state reached by a `close_position` call: the open set only
shrinks (as a sublist), history only grows, and every open position with a
different id survives untouched. -/
theorem closeApply_shape (st : TradingSimulator) (pid : Nat) (p : Option ℚ) :
    (closeApply st pid p).positions.Sublist st.positions
    ∧ (∀ x ∈ st.trade_history, x ∈ (closeApply st pid p).trade_history)
    ∧ (∀ a ∈ st.positions, (a.id == pid) = false →
        a ∈ (closeApply st pid p).positions) := by
  unfold closeApply TradingSimulator.close_position
  cases hfind : st.positions.find? (fun q => q.id == pid) with
  | none => exact ⟨List.Sublist.refl _, fun x hx => hx, fun a ha _ => ha⟩
  | some pos =>
    dsimp only
    by_cases hst : pos.status = "open"
    · rw [if_neg (not_not_intro hst)]
      cases hp : firstSome p (st.last_prices.lookup pos.pair) with
      | none => exact ⟨List.Sublist.refl _, fun x hx => hx, fun a ha _ => ha⟩
      | some q =>
        refine ⟨List.eraseP_sublist _, ?_, ?_⟩
        · intro x hx
          exact List.mem_append_left _ hx
        · intro a ha hne
          exact mem_eraseP_of_id_ne st.positions a pid ha hne
    · rw [if_pos hst]
      exact ⟨List.Sublist.refl _, fun x hx => hx, fun a ha _ => ha⟩

theorem check_shape (st : TradingSimulator) (pos0 : SimPosition) (price : ℚ) :
    (st.check_and_maybe_close pos0 price).positions.Sublist st.positions
    ∧ (∀ x ∈ st.trade_history,
        x ∈ (st.check_and_maybe_close pos0 price).trade_history)
    ∧ (∀ a ∈ st.positions, (a.id == pos0.id) = false →
        a ∈ (st.check_and_maybe_close pos0 price).positions) := by
  unfold TradingSimulator.check_and_maybe_close
  by_cases hc : (hitStop pos0 price || hitTP pos0 price) = true
  · rw [if_pos hc]
    exact closeApply_shape st pos0.id (some price)
  · rw [if_neg hc]
    exact ⟨List.Sublist.refl _, fun x hx => hx, fun a ha _ => ha⟩

/-- Frame over the remaining snapshot: the open set only shrinks and history
only grows across the `update_price` loop. -/
theorem updateGo_frame (price : ℚ) (pair : String) (l : List SimPosition) :
    ∀ st : TradingSimulator,
      (updateGo price pair st l).positions.Sublist st.positions
      ∧ (∀ x ∈ st.trade_history, x ∈ (updateGo price pair st l).trade_history) := by
  induction l with
  | nil => exact fun st => ⟨List.Sublist.refl _, fun x hx => hx⟩
  | cons q rest ih =>
    intro st
    unfold updateGo
    by_cases hc : (q.pair == pair && q.status == "open") = true
    · rw [if_pos hc]
      obtain ⟨hs, hh⟩ := ih (st.check_and_maybe_close q price)
      obtain ⟨hs', hh', _⟩ := check_shape st q price
      exact ⟨hs.trans hs', fun x hx => hh _ (hh' x hx)⟩
    · rw [if_neg hc]
      exact ih st

/-- A position whose id does not occur in the remaining snapshot survives the
rest of the `update_price` loop. -/
theorem updateGo_keep (price : ℚ) (pair : String) (l : List SimPosition) :
    ∀ st : TradingSimulator, ∀ pos : SimPosition,
      pos ∈ st.positions → pos.id ∉ l.map (fun p => p.id) →
      pos ∈ (updateGo price pair st l).positions := by
  induction l with
  | nil => exact fun st pos hmem _ => hmem
  | cons q rest ih =>
    intro st pos hmem hnin
    simp only [List.map_cons, List.mem_cons, not_or] at hnin
    unfold updateGo
    by_cases hc : (q.pair == pair && q.status == "open") = true
    · rw [if_pos hc]
      refine ih _ pos ?_ (by simpa using hnin.2)
      obtain ⟨_, _, hkeep⟩ := check_shape st q price
      exact hkeep pos hmem (by simpa using hnin.1)
    · rw [if_neg hc]
      exact ih st pos hmem (by simpa using hnin.2)

/-- The successful branch of `close_position`, as one equation. -/
theorem close_position_eq (st : TradingSimulator) (pid : Nat) (p : ℚ)
    (pos : SimPosition)
    (hfind : st.positions.find? (fun q => q.id == pid) = some pos)
    (hopen : pos.status = "open") :
    st.close_position pid (some p) =
      .ok (closedVersion pos p,
        { st with
          cash := st.cash + pos.notional + calc_pnl_price pos p,
          trade_history := st.trade_history ++ [closedVersion pos p],
          positions := st.positions.eraseP (fun q => q.id == pid) }) := by
  unfold TradingSimulator.close_position
  rw [hfind]
  dsimp only
  rw [if_neg (not_not_intro hopen)]
  rfl

theorem closeApply_closes (st : TradingSimulator) (pid : Nat) (p : ℚ)
    (pos : SimPosition)
    (hfind : st.positions.find? (fun q => q.id == pid) = some pos)
    (hopen : pos.status = "open") :
    closeApply st pid (some p) =
      { st with
        cash := st.cash + pos.notional + calc_pnl_price pos p,
        trade_history := st.trade_history ++ [closedVersion pos p],
        positions := st.positions.eraseP (fun q => q.id == pid) } := by
  unfold closeApply
  rw [close_position_eq st pid p pos hfind hopen]

/-- Heart of the trigger claim: walking the snapshot list closes exactly the
triggered position and leaves an untriggered one open. -/
theorem updateGo_spec (price : ℚ) (pair : String) (pos : SimPosition)
    (hpair : pos.pair = pair) (hopen : pos.status = "open") :
    ∀ (l : List SimPosition) (st : TradingSimulator),
      (l.map (fun p => p.id)).Nodup →
      (st.positions.map (fun p => p.id)).Nodup →
      pos ∈ l → pos ∈ st.positions →
      ((hitStop pos price || hitTP pos price) = true →
          pos.id ∉ (updateGo price pair st l).positions.map (fun p => p.id)
          ∧ closedVersion pos price ∈ (updateGo price pair st l).trade_history)
      ∧ ((hitStop pos price || hitTP pos price) = false →
          pos ∈ (updateGo price pair st l).positions) := by
  intro l
  induction l with
  | nil => intro st _ _ hml _; simp at hml
  | cons q rest ih =>
    intro st hndl hndst hml hmst
    simp only [List.map_cons, List.nodup_cons] at hndl
    unfold updateGo
    rcases List.mem_cons.mp hml with hq | hq
    · subst hq
      have hc : (pos.pair == pair && pos.status == "open") = true := by
        simp [hpair, hopen]
      rw [if_pos hc]
      unfold TradingSimulator.check_and_maybe_close
      constructor
      · intro htrig
        rw [if_pos htrig]
        have hfind := find?_id_of_nodup st.positions pos hndst hmst
        rw [closeApply_closes st pos.id price pos hfind hopen]
        obtain ⟨hs, hh⟩ := updateGo_frame price pair rest
          { st with
            cash := st.cash + pos.notional + calc_pnl_price pos price,
            trade_history := st.trade_history ++ [closedVersion pos price],
            positions := st.positions.eraseP (fun q => q.id == pos.id) }
        constructor
        · intro hcmem
          exact id_not_mem_eraseP st.positions pos hndst hmst
            ((hs.map (fun p => p.id)).subset hcmem)
        · exact hh _ (List.mem_append_right _ (List.mem_singleton.mpr rfl))
      · intro htrig
        rw [if_neg (by simp [htrig])]
        exact updateGo_keep price pair rest st pos hmst hndl.1
    · have hqid : (pos.id == q.id) = false := by
        cases hx : (pos.id == q.id) with
        | false => rfl
        | true =>
          exfalso
          have heq : pos.id = q.id := by rwa [Nat.beq_eq_true_eq] at hx
          have hpm : pos.id ∈ rest.map (fun p => p.id) :=
            List.mem_map.mpr ⟨pos, hq, rfl⟩
          exact hndl.1 (by rw [← heq]; exact hpm)
      by_cases hc : (q.pair == pair && q.status == "open") = true
      · rw [if_pos hc]
        obtain ⟨hs1, _, hkeep1⟩ := check_shape st q price
        exact ih (st.check_and_maybe_close q price) hndl.2
          ((hs1.map (fun p => p.id)).nodup hndst) hq (hkeep1 pos hmst hqid)
      · rw [if_neg hc]
        exact ih st hndl.2 hndst hq hmst

/-! ### Shared helper lemmas and witness states -/

theorem pyLower_long : pyLower "long" = "long" := by decide

theorem wins_add_losses_le (l : List SimPosition) :
    l.countP (fun t => decide (0 < t.pnl.getD 0))
      + l.countP (fun t => decide (t.pnl.getD 0 < 0)) ≤ l.length := by
  induction l with
  | nil => simp
  | cons a l ih =>
    simp only [List.countP_cons, List.length_cons]
    by_cases h1 : (0:ℚ) < a.pnl.getD 0
    · have h2 : ¬ a.pnl.getD 0 < 0 := fun hx => lt_irrefl _ (lt_trans hx h1)
      simp [h1, h2] <;> omega
    · by_cases h2 : a.pnl.getD 0 < 0 <;> simp [h1, h2] <;> omega

theorem pySliceFrom_sublist {α : Type} (l : List α) (s : Int) :
    (pySliceFrom l s).Sublist l := by
  unfold pySliceFrom
  split
  · exact List.drop_sublist _ _
  · exact List.drop_sublist _ _

def posW2 : SimPosition :=
  ⟨0, "BTC/USDT", "long", 100, 1000, none, none, "open", none, none⟩

def stW2a : TradingSimulator := ⟨10000, 9000, [posW2], [], [], 1⟩

def closedW2 : SimPosition :=
  ⟨0, "BTC/USDT", "long", 100, 1000, none, none, "closed", some 110, some 100⟩

def stW2b : TradingSimulator := ⟨10000, 10100, [], [closedW2], [], 1⟩

def posW3 : SimPosition :=
  ⟨0, "BTC/USDT", "long", 100, 1000, some 90, none, "open", none, none⟩

def stW3 : TradingSimulator := ⟨10000, 9000, [posW3], [], [("BTC/USDT", 100)], 1⟩

def posW4 : SimPosition :=
  ⟨0, "ETH/USDT", "short", 100, 1000, none, none, "open", none, none⟩

def stW4 : TradingSimulator := ⟨10000, 9000, [posW4], [], [], 1⟩

def stW6 : TradingSimulator :=
  (TradingSimulator.mk0 10000).update_price "BTC/USDT" 100

/-! ### Claim theorems -/

/-- Claim C1: cash conservation.  For every sequence of open, close and
price-ingestion (and reset) operations starting from a freshly constructed
account, at every observation point `cash + Σ(open notional)` equals
`initial_balance + Σ(realized pnl of closed trades)` — exactly, in rational
arithmetic. -/
theorem cash_conservation (initial_balance : ℚ) (ops : List Op) :
    conserved ((TradingSimulator.mk0 initial_balance).run ops) :=
  conserved_run ops _
    (by simp [conserved, TradingSimulator.mk0, openNotional, realizedPnl])

/-- Claim C2, counterexample: closing an already-closed position a second
time does not succeed and does not return the closed position — it fails
with `notFound` (`KeyError`), because `close_position` removed the position
from the open-position map when it closed it. -/
theorem close_idempotent_counterexample :
    (TradingSimulator.mk0 10000).place_order "BTC/USDT" "long" 1000
        (some 100) none none = .ok (posW2, stW2a)
    ∧ stW2a.close_position 0 (some 110) = .ok (closedW2, stW2b)
    ∧ closedW2.status = "closed"
    ∧ stW2b.close_position 0 (some 110) = .error (.notFound 0) := by
  refine ⟨?_, ?_, rfl, ?_⟩
  · norm_num [TradingSimulator.place_order, TradingSimulator.mk0,
      pyLower_long, firstSome, posW2, stW2a]
  · norm_num [TradingSimulator.close_position, stW2a, stW2b, posW2,
      closedW2, List.find?, firstSome, closedVersion, calc_pnl_price,
      List.eraseP]
  · norm_num [TradingSimulator.close_position, stW2b, List.find?]

/-- Claim C2 as amended: for every position that has already been closed —
its id is no longer in the open-position map, closed positions being removed
from it at close time — calling `close_position` again with that id fails
with `notFound` (`KeyError`) and mutates no account state. -/
theorem close_after_close_not_found (st : TradingSimulator) (pid : Nat)
    (p : Option ℚ)
    (h : st.positions.find? (fun q => q.id == pid) = none) :
    st.close_position pid p = .error (.notFound pid)
    ∧ closeApply st pid p = st := by
  constructor
  · unfold TradingSimulator.close_position
    rw [h]
  · unfold closeApply TradingSimulator.close_position
    rw [h]

theorem close_after_close_not_found_witness :
    stW2b.positions.find? (fun q => q.id == 0) = none
    ∧ stW2b.close_position 0 (some 110) = .error (.notFound 0)
    ∧ closeApply stW2b 0 (some 110) = stW2b := by
  have hfind : stW2b.positions.find? (fun q => q.id == 0) = none := by
    simp [stW2b, List.find?]
  have h := close_after_close_not_found stW2b 0 (some 110) hfind
  exact ⟨hfind, h.1, h.2⟩

/-- Claim C3: trigger correctness on price ingestion.  The source trigger
booleans say exactly: a long closes when `price ≤ stop_loss` or
`take_profit ≤ price`, a short when `stop_loss ≤ price` or
`price ≤ take_profit` (when the respective level is set); and for every open
position on the ingested market, `update_price` moves it to history closed at
the ingested price precisely when a trigger fired, and keeps it open
otherwise. -/
theorem trigger_on_update_price (st : TradingSimulator) (pair : String)
    (price : ℚ) (pos : SimPosition)
    (hnd : (st.positions.map (fun p => p.id)).Nodup)
    (hmem : pos ∈ st.positions) (hpair : pos.pair = pair)
    (hopen : pos.status = "open") :
    (hitStop pos price = true ↔
      ((pos.side = "long" ∧ ∃ sl, pos.stop_loss = some sl ∧ price ≤ sl) ∨
       (pos.side = "short" ∧ ∃ sl, pos.stop_loss = some sl ∧ sl ≤ price)))
    ∧ (hitTP pos price = true ↔
      ((pos.side = "long" ∧ ∃ tp, pos.take_profit = some tp ∧ tp ≤ price) ∨
       (pos.side = "short" ∧ ∃ tp, pos.take_profit = some tp ∧ price ≤ tp)))
    ∧ ((hitStop pos price || hitTP pos price) = true →
        pos.id ∉ (st.update_price pair price).positions.map (fun p => p.id)
        ∧ closedVersion pos price ∈ (st.update_price pair price).trade_history)
    ∧ ((hitStop pos price || hitTP pos price) = false →
        pos ∈ (st.update_price pair price).positions) := by
  have hiff1 : hitStop pos price = true ↔
      ((pos.side = "long" ∧ ∃ sl, pos.stop_loss = some sl ∧ price ≤ sl) ∨
       (pos.side = "short" ∧ ∃ sl, pos.stop_loss = some sl ∧ sl ≤ price)) := by
    cases hsl : pos.stop_loss <;> simp [hitStop, hsl]
  have hiff2 : hitTP pos price = true ↔
      ((pos.side = "long" ∧ ∃ tp, pos.take_profit = some tp ∧ tp ≤ price) ∨
       (pos.side = "short" ∧ ∃ tp, pos.take_profit = some tp ∧ price ≤ tp)) := by
    cases htp : pos.take_profit <;> simp [hitTP, htp]
  have hspec := updateGo_spec price pair pos hpair hopen st.positions
    { st with last_prices := setPrice st.last_prices pair price }
    hnd hnd hmem hmem
  exact ⟨hiff1, hiff2, hspec.1, hspec.2⟩

theorem trigger_on_update_price_witness :
    (hitStop posW3 89 || hitTP posW3 89) = true
    ∧ posW3.id ∉ (stW3.update_price "BTC/USDT" 89).positions.map (fun p => p.id)
    ∧ closedVersion posW3 89 ∈ (stW3.update_price "BTC/USDT" 89).trade_history
    ∧ (closedVersion posW3 89).pnl = some (-110) := by
  have h := trigger_on_update_price stW3 "BTC/USDT" 89 posW3
    (by simp [stW3, posW3]) (by simp [stW3]) rfl rfl
  have htrig : (hitStop posW3 89 || hitTP posW3 89) = true := by
    norm_num [hitStop, hitTP, posW3]
  obtain ⟨hni, hmem⟩ := h.2.2.1 htrig
  exact ⟨htrig, hni, hmem, by norm_num [closedVersion, calc_pnl_price, posW3]⟩

/-- Claim C4: PnL formula.  Closing a found open position at price `p`
returns it closed with `pnl = notional * (p/entry - 1)` for a long and
`pnl = notional * (entry/p - 1)` for a short, and credits cash with
`notional + pnl`. -/
theorem close_pnl_formula (st : TradingSimulator) (pid : Nat) (p : ℚ)
    (pos : SimPosition)
    (hfind : st.positions.find? (fun q => q.id == pid) = some pos)
    (hopen : pos.status = "open")
    (hep : 0 < pos.entry_price) (hcp : 0 < p) :
    st.close_position pid (some p) =
      .ok (closedVersion pos p,
        { st with
          cash := st.cash + pos.notional + calc_pnl_price pos p,
          trade_history := st.trade_history ++ [closedVersion pos p],
          positions := st.positions.eraseP (fun q => q.id == pid) })
    ∧ (closedVersion pos p).pnl =
        some (if pos.side = "long" then pos.notional * (p / pos.entry_price - 1)
          else pos.notional * (pos.entry_price / p - 1)) :=
  ⟨close_position_eq st pid p pos hfind hopen, rfl⟩

theorem close_pnl_formula_witness :
    (0:ℚ) < posW4.entry_price
    ∧ (closedVersion posW4 80).pnl = some 250
    ∧ stW4.close_position 0 (some 80) =
        .ok (closedVersion posW4 80,
          ⟨10000, 10250, [], [closedVersion posW4 80], [], 1⟩) := by
  have h := close_pnl_formula stW4 0 80 posW4
    (by simp [stW4, List.find?, posW4]) rfl (by norm_num [posW4]) (by norm_num)
  have hs : ¬("short" : String) = "long" := by decide
  refine ⟨by norm_num [posW4], ?_, ?_⟩
  · rw [h.2]
    norm_num [posW4, hs]
  · rw [h.1]
    norm_num [stW4, posW4, calc_pnl_price, List.eraseP, hs]

/-- Claim C5: insufficient-funds atomicity.  With a valid side and positive
notional, a `place_order` request with `notional > cash` fails with
`insufficientFunds` and leaves the whole account state unchanged. -/
theorem insufficient_funds_atomic (st : TradingSimulator) (pair side0 : String)
    (notional : ℚ) (entry_price stop_loss take_profit : Option ℚ)
    (hside : pyLower side0 = "long" ∨ pyLower side0 = "short")
    (hn : 0 < notional) (hcash : st.cash < notional) :
    st.place_order pair side0 notional entry_price stop_loss take_profit =
      .error (.insufficientFunds notional st.cash)
    ∧ placeApply st pair side0 notional entry_price stop_loss take_profit = st := by
  constructor
  · unfold TradingSimulator.place_order
    rw [if_neg (not_not_intro hside), if_neg (not_le.mpr hn), if_pos hcash]
  · unfold placeApply TradingSimulator.place_order
    rw [if_neg (not_not_intro hside), if_neg (not_le.mpr hn), if_pos hcash]

theorem insufficient_funds_atomic_witness :
    (0:ℚ) < 500
    ∧ (TradingSimulator.mk0 100).cash < 500
    ∧ (TradingSimulator.mk0 100).place_order "BTC/USDT" "long" 500
        (some 10) none none = .error (.insufficientFunds 500 100)
    ∧ placeApply (TradingSimulator.mk0 100) "BTC/USDT" "long" 500
        (some 10) none none = TradingSimulator.mk0 100 := by
  have hcash : (TradingSimulator.mk0 100).cash < 500 := by
    norm_num [TradingSimulator.mk0]
  have h := insufficient_funds_atomic (TradingSimulator.mk0 100) "BTC/USDT"
    "long" 500 (some 10) none none (Or.inl pyLower_long) (by norm_num) hcash
  refine ⟨by norm_num, hcash, ?_, h.2⟩
  rw [h.1]
  norm_num [TradingSimulator.mk0]

/-- Claim C6: risk sizing.  With positive equity, a recorded last price,
positive risk percent and nonzero stop distance, `suggest_notional_from_risk`
succeeds with `risk_amount = equity * risk_percent/100` and
`notional = risk_amount / |1 - stop_loss/last_price|`, reading but not
changing the ledger. -/
theorem risk_sizing_success (st : TradingSimulator) (risk_percent : ℚ)
    (pair : String) (stop_loss lp : ℚ) (heq : 0 < st.equity)
    (hlp : st.last_prices.lookup pair = some lp) (hrp : 0 < risk_percent)
    (hdist : |1 - stop_loss / lp| ≠ 0) :
    suggest_notional_from_risk st risk_percent pair stop_loss =
      .success ((st.equity * (risk_percent / 100)) / |1 - stop_loss / lp|)
        st.equity lp (st.equity * (risk_percent / 100)) := by
  unfold suggest_notional_from_risk
  rw [if_neg (not_le.mpr heq), hlp]
  dsimp only
  rw [if_neg (not_le.mpr (div_pos hrp (by norm_num))),
    if_neg (not_le.mpr (lt_of_le_of_ne (abs_nonneg _) (Ne.symm hdist)))]

theorem risk_sizing_success_witness :
    (0:ℚ) < stW6.equity
    ∧ suggest_notional_from_risk stW6 1 "BTC/USDT" 95 =
        .success 2000 10000 100 100 := by
  have heq : (0:ℚ) < stW6.equity := by
    norm_num [stW6, TradingSimulator.update_price, TradingSimulator.mk0,
      setPrice, updateGo, TradingSimulator.equity]
  have hlp : stW6.last_prices.lookup "BTC/USDT" = some 100 := by
    norm_num [stW6, TradingSimulator.update_price, TradingSimulator.mk0,
      setPrice, updateGo, List.lookup]
  have h := risk_sizing_success stW6 1 "BTC/USDT" 95 100 heq hlp
    (by norm_num) (by norm_num)
  refine ⟨heq, ?_⟩
  rw [h]
  norm_num [stW6, TradingSimulator.update_price, TradingSimulator.mk0,
    setPrice, updateGo, TradingSimulator.equity, abs]

/-- Claim C7: history summary aggregates.  For every state and limit, the
summary counts wins as trades in the returned window with `pnl > 0`, losses
as those with `pnl < 0` (zeros counted as neither), reports
`win_rate = wins/total` guarded to `0` for an empty window (never a division
error), and sums `total_pnl` over the returned window only — a sub-window of
the full history. -/
theorem trade_history_summary_spec (st : TradingSimulator) (limit : Int) :
    let s := st.trade_history_summary limit
    s.total_trades = s.trades.length
    ∧ s.wins = s.trades.countP (fun t => decide (0 < t.pnl.getD 0))
    ∧ s.losses = s.trades.countP (fun t => decide (t.pnl.getD 0 < 0))
    ∧ s.wins + s.losses ≤ s.total_trades
    ∧ s.win_rate =
        (if 0 < s.trades.length then (s.wins : ℚ) / (s.trades.length : ℚ) else 0)
    ∧ s.total_pnl = (s.trades.map (fun t => t.pnl.getD 0)).sum
    ∧ s.trades.Sublist st.trade_history := by
  intro s
  exact ⟨rfl, rfl, rfl, wins_add_losses_le _, rfl, rfl,
    pySliceFrom_sublist _ _⟩

/-- Claim C8: reset clears state.  From any account state, `reset` restores
cash to the (possibly newly supplied) initial balance, stores that balance,
and empties open positions, trade history and last prices; with the argument
omitted the previous initial balance is preserved. -/
theorem reset_clears_state (st : TradingSimulator) (ib : Option ℚ) :
    (st.reset ib).initial_balance = ib.getD st.initial_balance
    ∧ (st.reset ib).cash = ib.getD st.initial_balance
    ∧ (st.reset ib).positions = []
    ∧ (st.reset ib).trade_history = []
    ∧ (st.reset ib).last_prices = []
    ∧ (st.reset none).initial_balance = st.initial_balance := by
  cases ib <;> simp [TradingSimulator.reset]

/-- Claim C9: the `limit = 0` edge case of `trade_history_summary`.  The
Python slice `trade_history[-0:]` is the whole list, so the summary covers
the entire history: `total_trades` is the full length and all aggregates are
computed over every closed trade. -/
theorem trade_history_summary_limit_zero (st : TradingSimulator) :
    (st.trade_history_summary 0).trades = st.trade_history
    ∧ (st.trade_history_summary 0).total_trades = st.trade_history.length
    ∧ (st.trade_history_summary 0).wins =
        st.trade_history.countP (fun t => decide (0 < t.pnl.getD 0))
    ∧ (st.trade_history_summary 0).losses =
        st.trade_history.countP (fun t => decide (t.pnl.getD 0 < 0))
    ∧ (st.trade_history_summary 0).win_rate =
        (if 0 < st.trade_history.length then
          ((st.trade_history.countP (fun t => decide (0 < t.pnl.getD 0)) : ℚ) /
            (st.trade_history.length : ℚ))
        else 0)
    ∧ (st.trade_history_summary 0).total_pnl = realizedPnl st := by
  have hs : pySliceFrom st.trade_history (-(0:Int)) = st.trade_history := by
    simp [pySliceFrom]
  unfold TradingSimulator.trade_history_summary
  rw [hs]
  exact ⟨rfl, rfl, rfl, rfl, rfl, rfl⟩

/-- Claim C10: notional cap at the `sim_place_order` boundary.  Whenever the
requested notional exceeds `MAX_NOTIONAL_FRACTION` (20%) of current equity,
the tool returns an error and the account state is unchanged — no position is
ever opened through this boundary above the cap, even with sufficient cash. -/
theorem sim_place_order_cap (st : TradingSimulator) (pair side0 : String)
    (notional : ℚ) (entry_price stop_loss take_profit : Option ℚ)
    (h : st.equity * MAX_NOTIONAL_FRACTION < notional) :
    sim_place_order st pair side0 notional entry_price stop_loss take_profit =
      (.error, st) := by
  unfold sim_place_order
  rw [if_pos h]

theorem sim_place_order_cap_witness :
    (TradingSimulator.mk0 10000).equity * MAX_NOTIONAL_FRACTION < 3000
    ∧ (3000:ℚ) ≤ (TradingSimulator.mk0 10000).cash
    ∧ sim_place_order (TradingSimulator.mk0 10000) "BTC/USDT" "long" 3000
        (some 100) none none = (.error, TradingSimulator.mk0 10000) := by
  have hlt : (TradingSimulator.mk0 10000).equity * MAX_NOTIONAL_FRACTION < 3000 := by
    norm_num [TradingSimulator.mk0, TradingSimulator.equity, MAX_NOTIONAL_FRACTION]
  exact ⟨hlt, by norm_num [TradingSimulator.mk0],
    sim_place_order_cap (TradingSimulator.mk0 10000) "BTC/USDT" "long" 3000
      (some 100) none none hlt⟩

end CryptoSim
